import Mathlib

/-!
Verification of the smooth-triangle primitive of a ray tracer
(`src/objects/smooth_triangle.rs`): Möller–Trumbore ray/triangle
intersection with barycentric coordinates, smooth normal interpolation,
and group attachment.  `f32` arithmetic is idealized as exact rational
arithmetic (ℚ); the external vector/matrix library, the `Ray`, `Group`,
`Material` and `Intersection` collaborators and the global constants are
modelled from the specification since their sources are outside the
provided tree.
-/

/-- Modelled from the spec: the external vector library's 4-component
vector (`core/vector.rs`, `Vec4`), with `f32` components idealized as ℚ. -/
structure Vec4 where
  x : ℚ
  y : ℚ
  z : ℚ
  w : ℚ
deriving DecidableEq, Repr

/-- Modelled from the spec: componentwise vector addition. -/
def Vec4.add (a b : Vec4) : Vec4 :=
  ⟨a.x + b.x, a.y + b.y, a.z + b.z, a.w + b.w⟩

instance : Add Vec4 := ⟨Vec4.add⟩

/-- Modelled from the spec: componentwise vector subtraction (`&a - &b`). -/
def Vec4.sub (a b : Vec4) : Vec4 :=
  ⟨a.x - b.x, a.y - b.y, a.z - b.z, a.w - b.w⟩

instance : Sub Vec4 := ⟨Vec4.sub⟩

/-- Modelled from the spec: componentwise negation. -/
def Vec4.neg (a : Vec4) : Vec4 :=
  ⟨-a.x, -a.y, -a.z, -a.w⟩

instance : Neg Vec4 := ⟨Vec4.neg⟩

/-- Modelled from the spec: scaling a vector by a scalar (`&v * s`). -/
def Vec4.scale (a : Vec4) (s : ℚ) : Vec4 :=
  ⟨a.x * s, a.y * s, a.z * s, a.w * s⟩

/-- Modelled from the spec: the dot product `Vec4::dot`. -/
def Vec4.dot (a b : Vec4) : ℚ :=
  a.x * b.x + a.y * b.y + a.z * b.z + a.w * b.w

/-- Modelled from the spec: the cross product of the xyz parts
(`&a * &b` on vectors), a direction (w = 0). -/
def Vec4.cross (a b : Vec4) : Vec4 :=
  ⟨a.y * b.z - a.z * b.y, a.z * b.x - a.x * b.z, a.x * b.y - a.y * b.x, 0⟩

/-- Modelled from the spec: `normalize` scales a vector by the reciprocal
of its Euclidean magnitude.  The `f32` square root is modelled by the
computable `Rat.sqrt`; no claim settled in this file depends on the
numeric value of the magnitude. -/
def Vec4.normalize (a : Vec4) : Vec4 :=
  let mag := Rat.sqrt (a.x * a.x + a.y * a.y + a.z * a.z + a.w * a.w)
  ⟨a.x / mag, a.y / mag, a.z / mag, a.w / mag⟩

/-- Modelled from the spec: the external 4x4 matrix type (`Matrix4x4`). -/
structure Matrix4x4 where
  m00 : ℚ
  m01 : ℚ
  m02 : ℚ
  m03 : ℚ
  m10 : ℚ
  m11 : ℚ
  m12 : ℚ
  m13 : ℚ
  m20 : ℚ
  m21 : ℚ
  m22 : ℚ
  m23 : ℚ
  m30 : ℚ
  m31 : ℚ
  m32 : ℚ
  m33 : ℚ
deriving DecidableEq, Repr

/-- Modelled from the spec: matrix transposition. -/
def Matrix4x4.transpose (m : Matrix4x4) : Matrix4x4 :=
  ⟨m.m00, m.m10, m.m20, m.m30,
   m.m01, m.m11, m.m21, m.m31,
   m.m02, m.m12, m.m22, m.m32,
   m.m03, m.m13, m.m23, m.m33⟩

/-- Modelled from the spec: matrix-vector application. -/
def Matrix4x4.mulVec (m : Matrix4x4) (v : Vec4) : Vec4 :=
  ⟨m.m00 * v.x + m.m01 * v.y + m.m02 * v.z + m.m03 * v.w,
   m.m10 * v.x + m.m11 * v.y + m.m12 * v.z + m.m13 * v.w,
   m.m20 * v.x + m.m21 * v.y + m.m22 * v.z + m.m23 * v.w,
   m.m30 * v.x + m.m31 * v.y + m.m32 * v.z + m.m33 * v.w⟩

/-- Modelled from the spec: the identity matrix constant `IDENTITY`. -/
def IDENTITY : Matrix4x4 :=
  ⟨1, 0, 0, 0, 0, 1, 0, 0, 0, 0, 1, 0, 0, 0, 0, 1⟩

/-- Modelled from the spec: the global near-parallel determinant threshold
`EPSILON_BUMP` (`misc/utils.rs`); its numeric value is not given by the
spec, which quotes 1e-5 as the working tolerance, so it is fixed here at
1/100000.  No claim depends on the particular positive value. -/
def EPSILON_BUMP : ℚ := 1 / 100000

/-- Modelled from the spec: zeroing the homogeneous component so the
result of a normal transform is a pure direction. -/
def Vec4.setW0 (a : Vec4) : Vec4 := ⟨a.x, a.y, a.z, 0⟩

/-- Modelled from the spec: `normal_to_world` (`misc/utils.rs`) maps a
local normal through the ancestor chain, applying the inverse-transpose
rule once per ancestor inverse, zeroing w and re-normalizing after each
application.  The application order across nested ancestors is the spec's
open question; the chain is folded here from the front of the list.  For
an empty chain the normal is returned unchanged. -/
def normal_to_world (inverses : List Matrix4x4) (n : Vec4) : Vec4 :=
  inverses.foldl (fun acc inv => ((inv.transpose.mulVec acc).setW0).normalize) n

/-- Modelled from the spec: `Material` is an external opaque value type,
copied when inherited; modelled as an abstract tag. -/
structure Material where
  tag : ℕ
deriving DecidableEq, Repr

/-- Modelled from the spec: `Material::default()`. -/
def Material.default : Material := ⟨0⟩

/-- Modelled from the spec: a `Ray` has an origin and a direction. -/
structure Ray where
  origin : Vec4
  direction : Vec4
deriving DecidableEq, Repr

/-- Modelled from the spec: `Ray::position(ray, t) = origin + t·direction`. -/
def Ray.position (ray : Ray) (t : ℚ) : Vec4 :=
  ray.origin + ray.direction.scale t

/-- The smooth triangle record, from `smooth_triangle.rs`. -/
structure SmoothTriangle where
  p1 : Vec4
  p2 : Vec4
  p3 : Vec4
  n1 : Vec4
  n2 : Vec4
  n3 : Vec4
  e1 : Vec4
  e2 : Vec4
  material : Material
  parent_inverses : List Matrix4x4
  parent_material : Option Material
deriving DecidableEq, Repr

/-- `SmoothTriangle::default()`, from the source. -/
def SmoothTriangle.default : SmoothTriangle where
  p1 := ⟨0, 1, 0, 1⟩
  p2 := ⟨-1, 0, 0, 1⟩
  p3 := ⟨1, 0, 0, 1⟩
  n1 := ⟨0, 1, 0, 0⟩
  n2 := ⟨-1, 0, 0, 0⟩
  n3 := ⟨1, 0, 0, 0⟩
  e1 := ⟨-1, -1, 0, 0⟩
  e2 := ⟨1, -1, 0, 0⟩
  material := Material.default
  parent_inverses := []
  parent_material := none

/-- `SmoothTriangle::new`, from the source: derives `e1`, `e2` from the
given vertices. -/
def SmoothTriangle.new (p1 p2 p3 n1 n2 n3 : Vec4) (material : Material) :
    SmoothTriangle where
  e1 := p2 - p1
  e2 := p3 - p1
  p1 := p1
  p2 := p2
  p3 := p3
  n1 := n1
  n2 := n2
  n3 := n3
  material := material
  parent_inverses := []
  parent_material := none

/-- `get_material`, from the source. -/
def SmoothTriangle.get_material (self : SmoothTriangle) : Material :=
  self.material

/-- `get_inverse`, from the source: a smooth triangle's own inverse is the
identity. -/
def SmoothTriangle.get_inverse (_self : SmoothTriangle) : Matrix4x4 :=
  IDENTITY

/-- `normal`, from the source: interpolates the per-vertex normals by the
barycentric weights, normalizes, and maps through the ancestor chain.
The world point argument is ignored.  The source unwraps the two optional
barycentric arguments, panicking when either is absent; the panic is
modelled as `none`. -/
def SmoothTriangle.normal (self : SmoothTriangle) (_world_point : Vec4)
    (u v : Option ℚ) : Option Vec4 :=
  match u, v with
  | some u0, some v0 =>
    some (normal_to_world self.parent_inverses
      ((self.n2.scale u0 + self.n3.scale v0 +
        self.n1.scale (1 - u0 - v0)).normalize))
  | _, _ => none

/-- Modelled from the spec: the intersection record
(`ray_tracing/intersection.rs`): distance `t`, hit point, normal, the hit
object, and the barycentric coordinates.  The object reference is
specialized to the smooth-triangle kind, the only kind in the source. -/
structure Intersection where
  t : ℚ
  point : Vec4
  normal : Vec4
  object : SmoothTriangle
  u : ℚ
  v : ℚ
deriving DecidableEq, Repr

/-- Modelled from the spec: `Intersection::new_uv`. -/
def Intersection.new_uv (t : ℚ) (point normal : Vec4)
    (object : SmoothTriangle) (u v : ℚ) : Intersection :=
  ⟨t, point, normal, object, u, v⟩

/-- `intersect`, from the source: the Möller–Trumbore ray/triangle test. -/
def SmoothTriangle.intersect (self : SmoothTriangle) (ray : Ray) :
    Option (List Intersection) :=
  let dir_cross_e2 := ray.direction.cross self.e2
  let det := Vec4.dot self.e1 dir_cross_e2
  if |det| ≤ EPSILON_BUMP then none
  else
    let f := 1 / det
    let p1_to_origin := ray.origin - self.p1
    let u := f * Vec4.dot p1_to_origin dir_cross_e2
    if u < 0 ∨ u > 1 then none
    else
      let origin_cross_e1 := p1_to_origin.cross self.e1
      let v := f * Vec4.dot ray.direction origin_cross_e1
      if v < 0 ∨ u + v > 1 then none
      else
        let t := f * Vec4.dot self.e2 origin_cross_e1
        some [Intersection.new_uv t (Ray.position ray t)
          ((self.normal (Ray.position ray t) (some u) (some v)).getD
            ⟨0, 0, 0, 0⟩)
          self u v]

/-- `get_parent_inverses`, from the source. -/
def SmoothTriangle.get_parent_inverses (self : SmoothTriangle) :
    List Matrix4x4 :=
  self.parent_inverses

/-- `push_parent_inverse`, from the source; the mutation of `self` is
modelled by returning the updated triangle. -/
def SmoothTriangle.push_parent_inverse (self : SmoothTriangle)
    (inverse : Matrix4x4) : SmoothTriangle :=
  { self with parent_inverses := self.parent_inverses ++ [inverse] }

/-- `get_parent_material`, from the source. -/
def SmoothTriangle.get_parent_material (self : SmoothTriangle) :
    Option Material :=
  self.parent_material

/-- `set_parent_material`, from the source; the mutation of `self` is
modelled by returning the updated triangle. -/
def SmoothTriangle.set_parent_material (self : SmoothTriangle)
    (material : Material) : SmoothTriangle :=
  { self with parent_material := some material }

/-- Modelled from the spec: the renderer's polymorphic object set
(`dyn Object`).  The smooth triangle is one concrete kind among others;
the other kinds live outside this core and are modelled abstractly by a
tag. -/
inductive DynObject where
  | smoothTriangle (t : SmoothTriangle)
  | otherKind (tag : ℕ)
deriving DecidableEq, Repr

/-- Modelled from the spec: a `Group` exposes its inverse transform and
material and owns a collection of polymorphic objects.  Named `SceneGroup`
here because `Group` is taken by the algebra library. -/
structure SceneGroup where
  inverse : Matrix4x4
  material : Material
  objects : List DynObject
deriving DecidableEq, Repr

/-- Modelled from the spec: `Group::get_inverse`. -/
def SceneGroup.get_inverse (g : SceneGroup) : Matrix4x4 := g.inverse

/-- `add_to_group`, from the source: pushes the group's inverse, sets the
parent material, and moves the triangle into the group's collection.  The
consuming move is modelled by returning the updated group. -/
def SmoothTriangle.add_to_group (self : SmoothTriangle) (group : SceneGroup) :
    SceneGroup :=
  let s1 := self.push_parent_inverse group.get_inverse
  let s2 := s1.set_parent_material group.material
  { group with objects := group.objects ++ [DynObject.smoothTriangle s2] }

/-- `eq`, from the source: downcast to the same concrete kind, compare
field-by-field on success, yield `false` on any other kind. -/
def SmoothTriangle.eq (self : SmoothTriangle) (other : DynObject) : Bool :=
  match other with
  | DynObject.smoothTriangle x => x == self
  | _ => false

/-!  General lemmas shared by the claim theorems. -/

/-- The intersection routine, flattened: the three sequential guard
rejections collapse into one disjunction. -/
theorem intersect_flat (tri : SmoothTriangle) (ray : Ray) :
    tri.intersect ray =
      (let dir_cross_e2 := ray.direction.cross tri.e2
       let det := Vec4.dot tri.e1 dir_cross_e2
       let f := 1 / det
       let p1_to_origin := ray.origin - tri.p1
       let u := f * Vec4.dot p1_to_origin dir_cross_e2
       let origin_cross_e1 := p1_to_origin.cross tri.e1
       let v := f * Vec4.dot ray.direction origin_cross_e1
       let t := f * Vec4.dot tri.e2 origin_cross_e1
       if |det| ≤ EPSILON_BUMP ∨ u < 0 ∨ u > 1 ∨ v < 0 ∨ u + v > 1 then
         none
       else
         some [Intersection.new_uv t (Ray.position ray t)
           ((tri.normal (Ray.position ray t) (some u) (some v)).getD
             ⟨0, 0, 0, 0⟩)
           tri u v]) := by
  simp only [SmoothTriangle.intersect]
  split_ifs <;> tauto

/-- Unfolding lemma for vector addition on the `Add` instance. -/
theorem Vec4.add_def (a b : Vec4) : a + b = Vec4.add a b := rfl

/-- Unfolding lemma for vector subtraction on the `Sub` instance. -/
theorem Vec4.sub_def (a b : Vec4) : a - b = Vec4.sub a b := rfl

/-- Unfolding lemma for vector negation on the `Neg` instance. -/
theorem Vec4.neg_def (a : Vec4) : -a = Vec4.neg a := rfl

/-- Barycentric interpolation of the vertex normals at the three
vertices: the weights pick out a single vertex normal exactly. -/
theorem interp_vertex (a b c : Vec4) :
    b.scale 0 + c.scale 0 + a.scale (1 - 0 - 0) = a ∧
    b.scale 1 + c.scale 0 + a.scale (1 - 1 - 0) = b ∧
    b.scale 0 + c.scale 1 + a.scale (1 - 0 - 1) = c := by
  obtain ⟨ax, ay, az, aw⟩ := a
  obtain ⟨bx, b2, bz, bw⟩ := b
  obtain ⟨cx, cy, cz, cw⟩ := c
  refine ⟨?_, ?_, ?_⟩ <;>
    simp [Vec4.add_def, Vec4.add, Vec4.scale, Vec4.mk.injEq]

/-- The edge-vector invariant of the triangle record. -/
abbrev edge_invariant (t : SmoothTriangle) : Prop :=
  t.e1 = t.p2 - t.p1 ∧ t.e2 = t.p3 - t.p1

/-- Claim C1: for every triangle and ray, `intersect` returns no
intersection exactly when `|det| ≤ EPSILON_BUMP`, or `u < 0` or `u > 1`,
or `v < 0` or `u + v > 1` (with `det`, `u`, `v` the Möller–Trumbore
quantities); in every other case it returns exactly one intersection
record carrying `t = (1/det)·dot(e2, (origin-p1)×e1)`, the hit point, the
normal, `u`, `v`, and the triangle as the hit reference. -/
theorem intersect_miss_hit_characterization (tri : SmoothTriangle)
    (ray : Ray) (det u v t : ℚ)
    (hdet : det = Vec4.dot tri.e1 (ray.direction.cross tri.e2))
    (hu : u = 1 / det * Vec4.dot (ray.origin - tri.p1)
        (ray.direction.cross tri.e2))
    (hv : v = 1 / det * Vec4.dot ray.direction
        ((ray.origin - tri.p1).cross tri.e1))
    (ht : t = 1 / det * Vec4.dot tri.e2
        ((ray.origin - tri.p1).cross tri.e1)) :
    (tri.intersect ray = none ↔
      |det| ≤ EPSILON_BUMP ∨ u < 0 ∨ u > 1 ∨ v < 0 ∨ u + v > 1) ∧
    (¬(|det| ≤ EPSILON_BUMP ∨ u < 0 ∨ u > 1 ∨ v < 0 ∨ u + v > 1) →
      tri.intersect ray = some [Intersection.new_uv t (Ray.position ray t)
        ((tri.normal (Ray.position ray t) (some u) (some v)).getD
          ⟨0, 0, 0, 0⟩)
        tri u v]) := by
  subst hdet hu hv ht
  rw [intersect_flat]
  dsimp only
  split_ifs with h
  · exact ⟨iff_of_true rfl h, fun hn => absurd h hn⟩
  · exact ⟨iff_of_false (by simp) h, fun _ => rfl⟩

/-- Witness for C1: the default triangle and the ray from (0, 1/2, -2)
along +z hit with t = 2, u = v = 1/4. -/
theorem intersect_miss_hit_characterization_witness :
    SmoothTriangle.default.intersect ⟨⟨0, 1/2, -2, 1⟩, ⟨0, 0, 1, 0⟩⟩ =
      some [Intersection.new_uv 2 ⟨0, 1/2, 0, 1⟩ ⟨0, 1, 0, 0⟩
        SmoothTriangle.default (1/4) (1/4)] := by
  have h := (intersect_miss_hit_characterization SmoothTriangle.default
    ⟨⟨0, 1/2, -2, 1⟩, ⟨0, 0, 1, 0⟩⟩ (-2) (1/4) (1/4) 2
    (by norm_num [SmoothTriangle.default, Vec4.dot, Vec4.cross])
    (by norm_num [SmoothTriangle.default, Vec4.dot, Vec4.cross,
      Vec4.sub_def, Vec4.sub])
    (by norm_num [SmoothTriangle.default, Vec4.dot, Vec4.cross,
      Vec4.sub_def, Vec4.sub])
    (by norm_num [SmoothTriangle.default, Vec4.dot, Vec4.cross,
      Vec4.sub_def, Vec4.sub])).2 (by norm_num [EPSILON_BUMP])
  refine h.trans ?_
  norm_num [SmoothTriangle.default, Intersection.new_uv, Ray.position,
    Vec4.add_def, Vec4.add, Vec4.scale, SmoothTriangle.normal,
    normal_to_world, Vec4.normalize, Rat.sqrt, Vec4.mk.injEq]

/-- Claim C2: whenever `intersect` returns a hit, the barycentric
coordinates satisfy 0 ≤ u ≤ 1, 0 ≤ v ≤ 1, u + v ≤ 1, and the hit point
equals origin + t·direction (exactly, in the exact-arithmetic model). -/
theorem intersect_hit_barycentric_range (tri : SmoothTriangle) (ray : Ray)
    (l : List Intersection) (i : Intersection)
    (h : tri.intersect ray = some l) (hi : i ∈ l) :
    0 ≤ i.u ∧ i.u ≤ 1 ∧ 0 ≤ i.v ∧ i.v ≤ 1 ∧ i.u + i.v ≤ 1 ∧
      i.point = ray.origin + ray.direction.scale i.t := by
  rw [intersect_flat] at h
  dsimp only at h
  split_ifs at h with hc
  push_neg at hc
  obtain ⟨-, hu0, hu1, hv0, huv⟩ := hc
  obtain rfl := Option.some.inj h
  obtain rfl := List.mem_singleton.mp hi
  simp only [Intersection.new_uv]
  exact ⟨hu0, hu1, hv0, by linarith, huv, rfl⟩

/-- Witness for C2: the default triangle and the ray from (0, 1/2, -2)
along +z. -/
theorem intersect_hit_barycentric_range_witness :
    0 ≤ (1/4 : ℚ) ∧ (1/4 : ℚ) ≤ 1 ∧ 0 ≤ (1/4 : ℚ) ∧ (1/4 : ℚ) ≤ 1 ∧
      (1/4 : ℚ) + 1/4 ≤ 1 ∧
      (⟨0, 1/2, 0, 1⟩ : Vec4) =
        (⟨0, 1/2, -2, 1⟩ : Vec4) + Vec4.scale ⟨0, 0, 1, 0⟩ 2 :=
  intersect_hit_barycentric_range SmoothTriangle.default
    ⟨⟨0, 1/2, -2, 1⟩, ⟨0, 0, 1, 0⟩⟩
    [Intersection.new_uv 2 ⟨0, 1/2, 0, 1⟩ ⟨0, 1, 0, 0⟩
      SmoothTriangle.default (1/4) (1/4)]
    (Intersection.new_uv 2 ⟨0, 1/2, 0, 1⟩ ⟨0, 1, 0, 0⟩
      SmoothTriangle.default (1/4) (1/4))
    (by norm_num [SmoothTriangle.intersect, SmoothTriangle.default,
      Vec4.dot, Vec4.cross, Vec4.sub_def, Vec4.sub, Vec4.add_def, Vec4.add,
      Vec4.scale, EPSILON_BUMP, Ray.position, SmoothTriangle.normal,
      normal_to_world, Vec4.normalize, Rat.sqrt, Intersection.new_uv,
      Vec4.mk.injEq])
    (by simp)

/-- Claim C3: `new` and `default` establish e1 = p2 - p1 and
e2 = p3 - p1, and every operation preserves the invariant: the
triangle-updating operations leave p1, p2, p3, e1, e2 untouched, the
intersection stores the unchanged triangle itself, and the triangle moved
into a group still satisfies the invariant. -/
theorem edge_vectors_invariant (q1 q2 q3 m1 m2 m3 : Vec4)
    (mat mat2 : Material) (tri : SmoothTriangle) (g : SceneGroup)
    (inv : Matrix4x4) (ray : Ray) (h : edge_invariant tri) :
    edge_invariant (SmoothTriangle.new q1 q2 q3 m1 m2 m3 mat) ∧
    edge_invariant SmoothTriangle.default ∧
    edge_invariant (tri.push_parent_inverse inv) ∧
    edge_invariant (tri.set_parent_material mat2) ∧
    (∀ l i, tri.intersect ray = some l → i ∈ l → i.object = tri) ∧
    ∃ s, (tri.add_to_group g).objects =
        g.objects ++ [DynObject.smoothTriangle s] ∧ edge_invariant s := by
  refine ⟨⟨rfl, rfl⟩,
    by norm_num [edge_invariant, SmoothTriangle.default, Vec4.sub_def,
      Vec4.sub, Vec4.mk.injEq], h, h, ?_, ?_⟩
  · intro l i hl hi
    rw [intersect_flat] at hl
    dsimp only at hl
    split_ifs at hl
    obtain rfl := Option.some.inj hl
    obtain rfl := List.mem_singleton.mp hi
    rfl
  · exact ⟨(tri.push_parent_inverse g.get_inverse).set_parent_material
      g.material, rfl, h⟩

/-- Witness for C3: the default triangle satisfies the invariant. -/
theorem edge_vectors_invariant_witness : edge_invariant SmoothTriangle.default :=
  (edge_vectors_invariant ⟨0, 0, 0, 1⟩ ⟨1, 0, 0, 1⟩ ⟨0, 1, 0, 1⟩
    ⟨0, 0, 1, 0⟩ ⟨0, 0, 1, 0⟩ ⟨0, 0, 1, 0⟩ Material.default Material.default
    SmoothTriangle.default ⟨IDENTITY, Material.default, []⟩ IDENTITY
    ⟨⟨0, 1/2, -2, 1⟩, ⟨0, 0, 1, 0⟩⟩
    (by norm_num [edge_invariant, SmoothTriangle.default, Vec4.sub_def,
      Vec4.sub, Vec4.mk.injEq])).2.1

/-- Claim C4: attaching a triangle to a group appends the group's inverse
transform to `parent_inverses`, sets `parent_material` to the group's
material, and moves the triangle to the end of the group's member
collection; every other field of the triangle and of the group is
unchanged. -/
theorem add_to_group_effect (tri : SmoothTriangle) (g : SceneGroup) :
    tri.add_to_group g =
      { inverse := g.inverse, material := g.material,
        objects := g.objects ++ [DynObject.smoothTriangle
          { tri with
              parent_inverses := tri.parent_inverses ++ [g.get_inverse],
              parent_material := some g.material }] } := rfl

/-- Claim C6: for a triangle with an empty ancestor chain, the normal at
the vertices returns the normalized per-vertex normals. -/
theorem normal_at_vertices (tri : SmoothTriangle) (p : Vec4)
    (h : tri.parent_inverses = []) :
    tri.normal p (some 0) (some 0) = some tri.n1.normalize ∧
    tri.normal p (some 1) (some 0) = some tri.n2.normalize ∧
    tri.normal p (some 0) (some 1) = some tri.n3.normalize := by
  obtain ⟨h1, h2, h3⟩ := interp_vertex tri.n1 tri.n2 tri.n3
  refine ⟨?_, ?_, ?_⟩ <;>
    simp only [SmoothTriangle.normal, h, normal_to_world, List.foldl_nil,
      h1, h2, h3]

/-- Witness for C6: the default triangle (whose ancestor chain is empty)
at its three vertices. -/
theorem normal_at_vertices_witness :
    SmoothTriangle.default.normal ⟨0, 0, 0, 1⟩ (some 0) (some 0) =
      some (Vec4.normalize ⟨0, 1, 0, 0⟩) ∧
    SmoothTriangle.default.normal ⟨0, 0, 0, 1⟩ (some 1) (some 0) =
      some (Vec4.normalize ⟨-1, 0, 0, 0⟩) ∧
    SmoothTriangle.default.normal ⟨0, 0, 0, 1⟩ (some 0) (some 1) =
      some (Vec4.normalize ⟨1, 0, 0, 0⟩) :=
  normal_at_vertices SmoothTriangle.default ⟨0, 0, 0, 1⟩ rfl

/-- Claim C7: `normal` with both barycentric arguments present always
returns a value, and with either argument absent it fails (the source
panics on `unwrap`, modelled as `none`). -/
theorem normal_requires_barycentric (tri : SmoothTriangle) (p : Vec4)
    (u0 v0 : ℚ) (uo vo : Option ℚ) (h : uo = none ∨ vo = none) :
    (∃ n, tri.normal p (some u0) (some v0) = some n) ∧
    tri.normal p uo vo = none := by
  refine ⟨⟨_, rfl⟩, ?_⟩
  rcases h with rfl | rfl
  · cases vo <;> rfl
  · cases uo <;> rfl

/-- Witness for C7: the default triangle with u = v = 1/4 succeeds, and
with the first argument absent it fails. -/
theorem normal_requires_barycentric_witness :
    (∃ n, SmoothTriangle.default.normal ⟨0, 0, 0, 1⟩ (some (1/4))
        (some (1/4)) = some n) ∧
    SmoothTriangle.default.normal ⟨0, 0, 0, 1⟩ none (some (1/4)) = none :=
  normal_requires_barycentric SmoothTriangle.default ⟨0, 0, 0, 1⟩
    (1/4) (1/4) none (some (1/4)) (Or.inl rfl)

/-- Claim C8: the polymorphic equality test returns false against every
object of a different concrete kind, and field-by-field structural
equality against another smooth triangle. -/
theorem eq_same_kind_only (tri tri2 : SmoothTriangle) (tag : ℕ) :
    tri.eq (DynObject.otherKind tag) = false ∧
    (tri.eq (DynObject.smoothTriangle tri2) = true ↔
      (tri2.p1 = tri.p1 ∧ tri2.p2 = tri.p2 ∧ tri2.p3 = tri.p3 ∧
       tri2.n1 = tri.n1 ∧ tri2.n2 = tri.n2 ∧ tri2.n3 = tri.n3 ∧
       tri2.e1 = tri.e1 ∧ tri2.e2 = tri.e2 ∧
       tri2.material = tri.material ∧
       tri2.parent_inverses = tri.parent_inverses ∧
       tri2.parent_material = tri.parent_material)) := by
  refine ⟨rfl, ?_⟩
  simp only [SmoothTriangle.eq, beq_iff_eq]
  cases tri
  cases tri2
  simp [SmoothTriangle.mk.injEq]

/-- Claim C9: `intersect` does not filter by the sign of t: the default
triangle and the ray from (0, 1/2, 2) along +z, whose line meets the
triangle behind the origin, produce a hit with negative t. -/
theorem intersect_negative_t :
    ∃ i : Intersection,
      SmoothTriangle.default.intersect ⟨⟨0, 1/2, 2, 1⟩, ⟨0, 0, 1, 0⟩⟩ =
        some [i] ∧ i.t < 0 :=
  ⟨Intersection.new_uv (-2) ⟨0, 1/2, 0, 1⟩ ⟨0, 1, 0, 0⟩
    SmoothTriangle.default (1/4) (1/4),
    by norm_num [SmoothTriangle.intersect, SmoothTriangle.default,
      Vec4.dot, Vec4.cross, Vec4.sub_def, Vec4.sub, Vec4.add_def, Vec4.add,
      Vec4.scale, EPSILON_BUMP, Ray.position, SmoothTriangle.normal,
      normal_to_world, Vec4.normalize, Rat.sqrt, Intersection.new_uv,
      Vec4.mk.injEq],
    by norm_num [Intersection.new_uv]⟩

/-- Claim C10: `normal` never reads the supplied world point: two calls
with the same barycentric coordinates but different points agree. -/
theorem normal_ignores_world_point (tri : SmoothTriangle)
    (u v : Option ℚ) (pa pb : Vec4) :
    tri.normal pa u v = tri.normal pb u v := rfl

/-- Cross product is odd in its first argument. -/
theorem cross_neg_left (d e : Vec4) : (-d).cross e = -(d.cross e) := by
  obtain ⟨dx, dy, dz, dw⟩ := d
  obtain ⟨ex, ey, ez, ew⟩ := e
  simp only [Vec4.neg_def, Vec4.neg, Vec4.cross, Vec4.mk.injEq]
  refine ⟨by ring, by ring, by ring, by ring⟩

/-- Dot product is odd in its second argument. -/
theorem dot_neg_right (a b : Vec4) : Vec4.dot a (-b) = -(Vec4.dot a b) := by
  obtain ⟨ax, ay, az, aw⟩ := a
  obtain ⟨bx, b2, bz, bw⟩ := b
  simp only [Vec4.neg_def, Vec4.neg, Vec4.dot]
  ring

/-- Dot product is odd in its first argument. -/
theorem dot_neg_left (a b : Vec4) : Vec4.dot (-a) b = -(Vec4.dot a b) := by
  obtain ⟨ax, ay, az, aw⟩ := a
  obtain ⟨bx, b2, bz, bw⟩ := b
  simp only [Vec4.neg_def, Vec4.neg, Vec4.dot]
  ring

/-- Shifting the origin along the direction does not change the dot
against `d × e`: the scalar triple product with a repeated vector
vanishes. -/
theorem dot_shift_self (o d p e : Vec4) (s : ℚ) :
    Vec4.dot (o + d.scale s - p) (d.cross e) =
      Vec4.dot (o - p) (d.cross e) := by
  obtain ⟨ox, oy, oz, ow⟩ := o
  obtain ⟨dx, dy, dz, dw⟩ := d
  obtain ⟨px, py, pz, pw⟩ := p
  obtain ⟨ex, ey, ez, ew⟩ := e
  simp only [Vec4.add_def, Vec4.add, Vec4.sub_def, Vec4.sub, Vec4.scale,
    Vec4.cross, Vec4.dot]
  ring

/-- Shifting the origin along `d` does not change the dot of `d` against
the shifted cross product. -/
theorem dot_shift_cross_self (d o p e : Vec4) (s : ℚ) :
    Vec4.dot d ((o + d.scale s - p).cross e) =
      Vec4.dot d ((o - p).cross e) := by
  obtain ⟨dx, dy, dz, dw⟩ := d
  obtain ⟨ox, oy, oz, ow⟩ := o
  obtain ⟨px, py, pz, pw⟩ := p
  obtain ⟨ex, ey, ez, ew⟩ := e
  simp only [Vec4.add_def, Vec4.add, Vec4.sub_def, Vec4.sub, Vec4.scale,
    Vec4.cross, Vec4.dot]
  ring

/-- Bilinearity of the dot against a shifted cross product. -/
theorem dot_shift_cross (a o d p e : Vec4) (s : ℚ) :
    Vec4.dot a ((o + d.scale s - p).cross e) =
      Vec4.dot a ((o - p).cross e) + s * Vec4.dot a (d.cross e) := by
  obtain ⟨ax, ay, az, aw⟩ := a
  obtain ⟨ox, oy, oz, ow⟩ := o
  obtain ⟨dx, dy, dz, dw⟩ := d
  obtain ⟨px, py, pz, pw⟩ := p
  obtain ⟨ex, ey, ez, ew⟩ := e
  simp only [Vec4.add_def, Vec4.add, Vec4.sub_def, Vec4.sub, Vec4.scale,
    Vec4.cross, Vec4.dot]
  ring

/-- The scalar triple product changes sign when its outer arguments are
swapped. -/
theorem dot_cross_antisymm (a b c : Vec4) :
    Vec4.dot a (b.cross c) = -(Vec4.dot c (b.cross a)) := by
  obtain ⟨ax, ay, az, aw⟩ := a
  obtain ⟨bx, b2, bz, bw⟩ := b
  obtain ⟨cx, cy, cz, cw⟩ := c
  simp only [Vec4.cross, Vec4.dot]
  ring

/-- Claim C5: the sign of the determinant is never used to reject a hit.
Whenever a ray hits the triangle, the reversed (back-facing) ray through
the same point on the triangle also hits, with identical t and the same
barycentric coordinates. -/
theorem intersect_double_sided (tri : SmoothTriangle) (ray : Ray)
    (l : List Intersection) (i : Intersection)
    (h : tri.intersect ray = some l) (hi : i ∈ l) :
    ∃ i', tri.intersect
        ⟨ray.origin + ray.direction.scale (2 * i.t), -ray.direction⟩ =
          some [i'] ∧
      i'.t = i.t ∧ i'.u = i.u ∧ i'.v = i.v := by
  rw [intersect_flat] at h
  dsimp only at h
  split_ifs at h with hc
  obtain rfl := Option.some.inj h
  obtain rfl := List.mem_singleton.mp hi
  simp only [Intersection.new_uv]
  have hdet_ne : Vec4.dot tri.e1 (ray.direction.cross tri.e2) ≠ 0 := by
    intro h0
    exact hc (Or.inl (by rw [h0]; norm_num [EPSILON_BUMP]))
  have hdet2 : Vec4.dot tri.e1 ((-ray.direction).cross tri.e2) =
      -(Vec4.dot tri.e1 (ray.direction.cross tri.e2)) := by
    rw [cross_neg_left, dot_neg_right]
  have hu2 : 1 / Vec4.dot tri.e1 ((-ray.direction).cross tri.e2) *
      Vec4.dot (ray.origin + ray.direction.scale
          (2 * (1 / Vec4.dot tri.e1 (ray.direction.cross tri.e2) *
            Vec4.dot tri.e2 ((ray.origin - tri.p1).cross tri.e1))) -
        tri.p1) ((-ray.direction).cross tri.e2) =
      1 / Vec4.dot tri.e1 (ray.direction.cross tri.e2) *
        Vec4.dot (ray.origin - tri.p1) (ray.direction.cross tri.e2) := by
    rw [cross_neg_left, dot_neg_right, dot_neg_right, dot_shift_self,
      div_neg]
    ring
  have hv2 : 1 / Vec4.dot tri.e1 ((-ray.direction).cross tri.e2) *
      Vec4.dot (-ray.direction)
        ((ray.origin + ray.direction.scale
            (2 * (1 / Vec4.dot tri.e1 (ray.direction.cross tri.e2) *
              Vec4.dot tri.e2 ((ray.origin - tri.p1).cross tri.e1))) -
          tri.p1).cross tri.e1) =
      1 / Vec4.dot tri.e1 (ray.direction.cross tri.e2) *
        Vec4.dot ray.direction ((ray.origin - tri.p1).cross tri.e1) := by
    rw [cross_neg_left, dot_neg_right, dot_neg_left, dot_shift_cross_self,
      div_neg]
    ring
  have ht2 : 1 / Vec4.dot tri.e1 ((-ray.direction).cross tri.e2) *
      Vec4.dot tri.e2
        ((ray.origin + ray.direction.scale
            (2 * (1 / Vec4.dot tri.e1 (ray.direction.cross tri.e2) *
              Vec4.dot tri.e2 ((ray.origin - tri.p1).cross tri.e1))) -
          tri.p1).cross tri.e1) =
      1 / Vec4.dot tri.e1 (ray.direction.cross tri.e2) *
        Vec4.dot tri.e2 ((ray.origin - tri.p1).cross tri.e1) := by
    rw [cross_neg_left, dot_neg_right,
      dot_shift_cross tri.e2 ray.origin ray.direction tri.p1 tri.e1,
      dot_cross_antisymm tri.e2 ray.direction tri.e1, div_neg]
    field_simp
    ring
  have key := intersect_flat tri
    ⟨ray.origin + ray.direction.scale
        (2 * (1 / Vec4.dot tri.e1 (ray.direction.cross tri.e2) *
          Vec4.dot tri.e2 ((ray.origin - tri.p1).cross tri.e1))),
      -ray.direction⟩
  dsimp only at key
  rw [hu2, hv2, ht2, hdet2, abs_neg, if_neg hc] at key
  exact ⟨_, key, rfl, rfl, rfl⟩

/-- Witness for C5: the default triangle, hit by the ray from
(0, 1/2, -2) along +z at t = 2; the reversed ray through the same point
hits with the same t, u, v. -/
theorem intersect_double_sided_witness :
    ∃ i', SmoothTriangle.default.intersect
        ⟨(⟨0, 1/2, -2, 1⟩ : Vec4) + Vec4.scale ⟨0, 0, 1, 0⟩ (2 * 2),
          -(⟨0, 0, 1, 0⟩ : Vec4)⟩ =
          some [i'] ∧
      i'.t = 2 ∧ i'.u = 1/4 ∧ i'.v = 1/4 :=
  intersect_double_sided SmoothTriangle.default
    ⟨⟨0, 1/2, -2, 1⟩, ⟨0, 0, 1, 0⟩⟩
    [Intersection.new_uv 2 ⟨0, 1/2, 0, 1⟩ ⟨0, 1, 0, 0⟩
      SmoothTriangle.default (1/4) (1/4)]
    (Intersection.new_uv 2 ⟨0, 1/2, 0, 1⟩ ⟨0, 1, 0, 0⟩
      SmoothTriangle.default (1/4) (1/4))
    (by norm_num [SmoothTriangle.intersect, SmoothTriangle.default,
      Vec4.dot, Vec4.cross, Vec4.sub_def, Vec4.sub, Vec4.add_def, Vec4.add,
      Vec4.scale, EPSILON_BUMP, Ray.position, SmoothTriangle.normal,
      normal_to_world, Vec4.normalize, Rat.sqrt, Intersection.new_uv,
      Vec4.mk.injEq])
    (by simp)
